import Mathlib

/-!
Verification of the StockSentinel scoring core.

Shallow embedding of `src/utils/recommendation_engine.py`,
`src/utils/financial_metrics.py` and `src/utils/stock_analyzer.py`.
Python floats are modelled as rationals; a fundamentals field that may be
missing from the metrics dictionary is modelled as `Option ℚ` (a `.get`
returning `None` corresponds to `none`).  A price-history DataFrame is
modelled as a list of bars carrying the `Close` and `Volume` columns.
-/

/-- One row of the price-history DataFrame: the `Close` and `Volume`
columns, the only ones the scoring core reads. -/
structure Bar where
  close : ℚ
  volume : ℚ
deriving DecidableEq

/-- The fundamentals metrics mapping built by
`FinancialMetrics.calculate_metrics`: every field is optional, `none`
standing for a key whose `.get` returns `None`.  Only the fields the
scoring functions read are modelled. -/
structure Metrics where
  pe : Option ℚ := none
  pb : Option ℚ := none
  ps : Option ℚ := none
  profitMargin : Option ℚ := none
  roe : Option ℚ := none
  debtToEquity : Option ℚ := none
  currentRatioVal : Option ℚ := none
  revenueGrowth : Option ℚ := none
  earningsGrowth : Option ℚ := none
  dividendYield : Option ℚ := none
  beta : Option ℚ := none
deriving DecidableEq

/-- The five discrete actions of `get_recommendation`. -/
inductive RecAction where
  | strongBuy
  | buy
  | hold
  | sell
  | strongSell
deriving DecidableEq

/-- A factor block that is present contributes its bucketed points and
counts one factor; an absent field contributes nothing
(`if <field> is not None:` in the source). -/
def optFactor (f : ℚ → ℚ) : Option ℚ → ℚ × ℕ
  | some x => (f x, 1)
  | none => (0, 0)

/-- A factor block guarded by `is not None and <field> > 0`
(the valuation ratios in `calculate_valuation_score`). -/
def optPosFactor (f : ℚ → ℚ) : Option ℚ → ℚ × ℕ
  | some x => if 0 < x then (f x, 1) else (0, 0)
  | none => (0, 0)

/-- The `score / factors if factors > 0 else 50` pattern shared by the
sub-score functions: total points over the number of present factors,
neutral 50 when nothing is present. -/
def scoreAvg (ps : List (ℚ × ℕ)) : ℚ :=
  let s := (ps.map Prod.fst).sum
  let f := (ps.map Prod.snd).sum
  if 0 < f then s / (f : ℚ) else 50

/-- Profit-margin buckets of
`RecommendationEngine.calculate_financial_health_score`. -/
def profitMarginPts (pm : ℚ) : ℚ :=
  if 0.20 < pm then 25 else if 0.15 < pm then 20 else if 0.10 < pm then 15
  else if 0.05 < pm then 10 else if 0 < pm then 5 else 0

/-- ROE buckets of `calculate_financial_health_score`. -/
def roePts (r : ℚ) : ℚ :=
  if 0.20 < r then 25 else if 0.15 < r then 20 else if 0.10 < r then 15
  else if 0.05 < r then 10 else if 0 < r then 5 else 0

/-- Debt-to-equity buckets of `calculate_financial_health_score`
(inverted scale, floor of 5 points). -/
def debtToEquityPts (d : ℚ) : ℚ :=
  if d < 0.3 then 25 else if d < 0.5 then 20 else if d < 1.0 then 15
  else if d < 2.0 then 10 else 5

/-- Current-ratio buckets of `calculate_financial_health_score`
(floor of 5 points). -/
def currentRatioPts (c : ℚ) : ℚ :=
  if 2.0 < c then 25 else if 1.5 < c then 20 else if 1.2 < c then 15
  else if 1.0 < c then 10 else 5

/-- `RecommendationEngine.calculate_financial_health_score`: four optional
factors, bucket points averaged over the present factors, 50 if none. -/
def calculateFinancialHealthScore (m : Metrics) : ℚ :=
  scoreAvg [optFactor profitMarginPts m.profitMargin,
            optFactor roePts m.roe,
            optFactor debtToEquityPts m.debtToEquity,
            optFactor currentRatioPts m.currentRatioVal]

/-- P/E buckets of `calculate_valuation_score`. -/
def pePts (x : ℚ) : ℚ :=
  if x < 10 then 25 else if x < 15 then 20 else if x < 20 then 15
  else if x < 25 then 10 else if x < 35 then 5 else 0

/-- Price-to-book buckets of `calculate_valuation_score`. -/
def pbPts (x : ℚ) : ℚ :=
  if x < 1.0 then 25 else if x < 1.5 then 20 else if x < 2.0 then 15
  else if x < 3.0 then 10 else if x < 4.0 then 5 else 0

/-- Price-to-sales buckets of `calculate_valuation_score`. -/
def psPts (x : ℚ) : ℚ :=
  if x < 1.0 then 25 else if x < 2.0 then 20 else if x < 3.0 then 15
  else if x < 5.0 then 10 else if x < 7.0 then 5 else 0

/-- `RecommendationEngine.calculate_valuation_score`: each ratio counts
only when present and strictly positive. -/
def calculateValuationScore (m : Metrics) : ℚ :=
  scoreAvg [optPosFactor pePts m.pe,
            optPosFactor pbPts m.pb,
            optPosFactor psPts m.ps]

/-- Revenue/earnings-growth buckets of `calculate_growth_score`. -/
def growthPts (g : ℚ) : ℚ :=
  if 0.25 < g then 25 else if 0.15 < g then 20 else if 0.10 < g then 15
  else if 0.05 < g then 10 else if 0 < g then 5 else 0

/-- `RecommendationEngine.calculate_growth_score`. -/
def calculateGrowthScore (m : Metrics) : ℚ :=
  scoreAvg [optFactor growthPts m.revenueGrowth,
            optFactor growthPts m.earningsGrowth]

/-- Close prices column of the history. -/
def closesOf (hist : List Bar) : List ℚ := hist.map Bar.close

/-- Volume column of the history. -/
def volumesOf (hist : List Bar) : List ℚ := hist.map Bar.volume

/-- Mean of the last `k` entries of a column — the value of
`rolling(window=k).mean().iloc[-1]` (equivalently `.iloc[-k:].mean()`)
at the final row, for a series of length at least `k`. -/
def meanLastK (l : List ℚ) (k : ℕ) : ℚ :=
  (l.drop (l.length - k)).sum / (((l.drop (l.length - k)).length : ℕ) : ℚ)

/-- `close.iloc[-1]`, the current price. -/
def lastClose (hist : List Bar) : ℚ :=
  (closesOf hist).getD (hist.length - 1) 0

/-- Moving-average block of `calculate_technical_score`:
`+25` when the current price is above the 20-day mean, else `+10`. -/
def maPart (hist : List Bar) : ℚ × ℕ :=
  if 20 ≤ hist.length then
    (if meanLastK (closesOf hist) 20 < lastClose hist then 25 else 10, 1)
  else (0, 0)

/-- Momentum buckets of the 10-day block in `calculate_technical_score`. -/
def techMomentumPts (mom : ℚ) : ℚ :=
  if 0.05 < mom then 25 else if 0.02 < mom then 20 else if 0 < mom then 15
  else if -0.02 < mom then 10 else 5

/-- Price-momentum block of `calculate_technical_score`:
relative change against `close.iloc[-10]`. -/
def momPart (hist : List Bar) : ℚ × ℕ :=
  if 10 ≤ hist.length then
    let p := (closesOf hist).getD (hist.length - 10) 0
    (techMomentumPts ((lastClose hist - p) / p), 1)
  else (0, 0)

/-- Volume block of `calculate_technical_score`: mean of the last 5
volumes against the 20-day mean volume. -/
def volPart (hist : List Bar) : ℚ × ℕ :=
  if 20 ≤ hist.length then
    let avgVol := meanLastK (volumesOf hist) 20
    let recentVol := meanLastK (volumesOf hist) 5
    (if avgVol * 1.2 < recentVol then 25
     else if avgVol < recentVol then 20 else 15, 1)
  else (0, 0)

/-- `RecommendationEngine.calculate_technical_score`: 50 below 50 bars,
otherwise the three blocks averaged. -/
def calculateTechnicalScore (hist : List Bar) : ℚ :=
  if hist.length < 50 then 50
  else scoreAvg [maPart hist, momPart hist, volPart hist]

/-- Momentum buckets of `calculate_momentum_score`. -/
def momentumPts (mom : ℚ) : ℚ :=
  if 0.10 < mom then 25 else if 0.05 < mom then 20 else if 0.02 < mom then 15
  else if 0 < mom then 10 else if -0.02 < mom then 8
  else if -0.05 < mom then 5 else 0

/-- The `momentum_scores` list of `calculate_momentum_score`: one
bucketed relative change per period in `[5, 10, 20]` with enough bars. -/
def momentumScores (hist : List Bar) : List ℚ :=
  ([5, 10, 20] : List ℕ).filterMap (fun p =>
    if p ≤ hist.length then
      some (momentumPts
        (((closesOf hist).getD (hist.length - 1) 0 - (closesOf hist).getD (hist.length - p) 0) /
          (closesOf hist).getD (hist.length - p) 0))
    else none)

/-- `RecommendationEngine.calculate_momentum_score`: 50 below 30 bars,
otherwise the mean of the bucketed 5/10/20-day relative changes
(`np.mean(momentum_scores) if momentum_scores else 50`). -/
def calculateMomentumScore (hist : List Bar) : ℚ :=
  if hist.length < 30 then 50
  else if (momentumScores hist).isEmpty then 50
  else (momentumScores hist).sum / ((momentumScores hist).length : ℚ)

/-- Weight of the financial-health sub-score in `self.weights`. -/
def wFinancial : ℚ := 0.25

/-- Weight of the valuation sub-score. -/
def wValuation : ℚ := 0.25

/-- Weight of the technical sub-score. -/
def wTechnical : ℚ := 0.25

/-- Weight of the growth sub-score. -/
def wGrowth : ℚ := 0.15

/-- Weight of the momentum sub-score. -/
def wMomentum : ℚ := 0.10

/-- The weighted composite of `get_recommendation` as a function of the
five sub-score values. -/
def overallScore (f v t g mo : ℚ) : ℚ :=
  f * wFinancial + v * wValuation + t * wTechnical + g * wGrowth + mo * wMomentum

/-- The `overall_score` computed inside `get_recommendation`. -/
def recommendOverall (m : Metrics) (hist : List Bar) : ℚ :=
  overallScore (calculateFinancialHealthScore m)
               (calculateValuationScore m)
               (calculateTechnicalScore hist)
               (calculateGrowthScore m)
               (calculateMomentumScore hist)

/-- The action branch of `get_recommendation`. -/
def actionOf (s : ℚ) : RecAction :=
  if 75 ≤ s then .strongBuy
  else if 60 ≤ s then .buy
  else if 40 ≤ s then .hold
  else if 25 ≤ s then .sell
  else .strongSell

/-- The confidence computed alongside the action in
`get_recommendation`. -/
def confidenceOf (s : ℚ) : ℚ :=
  if 75 ≤ s then min s 95
  else if 60 ≤ s then s
  else if 40 ≤ s then 100 - |s - 50| * 2
  else if 25 ≤ s then 100 - s
  else min (100 - s) 95

/-- The `action` field of the record returned by `get_recommendation`. -/
def recommendAction (m : Metrics) (hist : List Bar) : RecAction :=
  actionOf (recommendOverall m hist)

/-- Profit-margin buckets of `FinancialMetrics.get_financial_health_score`
(the 0/5/10/15/20 scale of the metrics-extractor variant). -/
def fmProfitMarginPts (pm : ℚ) : ℚ :=
  if 0.15 < pm then 20 else if 0.10 < pm then 15
  else if 0.05 < pm then 10 else if 0 < pm then 5 else 0

/-- ROE buckets of `get_financial_health_score`. -/
def fmRoePts (r : ℚ) : ℚ :=
  if 0.20 < r then 20 else if 0.15 < r then 15
  else if 0.10 < r then 10 else if 0 < r then 5 else 0

/-- Debt-to-equity buckets of `get_financial_health_score`
(no points at all from 2.0 upward). -/
def fmDebtPts (d : ℚ) : ℚ :=
  if d < 0.3 then 20 else if d < 0.5 then 15
  else if d < 1.0 then 10 else if d < 2.0 then 5 else 0

/-- Current-ratio buckets of `get_financial_health_score`. -/
def fmCurrentPts (c : ℚ) : ℚ :=
  if 2.0 < c then 20 else if 1.5 < c then 15
  else if 1.2 < c then 10 else if 1.0 < c then 5 else 0

/-- Revenue-growth buckets of `get_financial_health_score`. -/
def fmRevGrowthPts (g : ℚ) : ℚ :=
  if 0.20 < g then 20 else if 0.10 < g then 15
  else if 0.05 < g then 10 else if 0 < g then 5 else 0

/-- `FinancialMetrics.get_financial_health_score`: five optional factors
on a 20-point bucket scale, `min(score / factors, 100)` when any factor
is present, 50 otherwise. -/
def getFinancialHealthScore (m : Metrics) : ℚ :=
  let ps := [optFactor fmProfitMarginPts m.profitMargin,
             optFactor fmRoePts m.roe,
             optFactor fmDebtPts m.debtToEquity,
             optFactor fmCurrentPts m.currentRatioVal,
             optFactor fmRevGrowthPts m.revenueGrowth]
  let s := (ps.map Prod.fst).sum
  let f := (ps.map Prod.snd).sum
  if 0 < f then min (s / (f : ℚ)) 100 else 50

/-- The distinct factor strings `generate_key_factors` can emit, tagged
with the numeric value the f-string embeds where one is interpolated. -/
inductive KeyFactor where
  | strongFinancial
  | weakFinancial
  | attractivePE (v : ℚ)
  | highPE (v : ℚ)
  | strongRevenueGrowth (v : ℚ)
  | decliningRevenue (v : ℚ)
  | attractiveDividend (v : ℚ)
  | highBeta (v : ℚ)
  | lowBeta (v : ℚ)
  | highDebt
  | conservativeDebt
deriving DecidableEq

/-- Python truthiness of an optional float: `None`, `0` and `0.0` are
falsy, every other value truthy (the `if <field> and <cond>:` guards of
`generate_key_factors`). -/
def truthy : Option ℚ → Prop
  | none => False
  | some x => x ≠ 0

instance : DecidablePred truthy := fun o => by
  cases o with
  | none => exact isFalse (fun h => h)
  | some x => exact inferInstanceAs (Decidable (x ≠ 0))

/-- `RecommendationEngine.generate_key_factors`: the branch structure of
the source, with each emitted string abstracted to its `KeyFactor`
constructor.  Of the five sub-scores only the financial one is read. -/
def generateKeyFactors (m : Metrics) (financialScore _valuationScore
    _technicalScore _growthScore _momentumScore : ℚ) : List KeyFactor :=
  let l1 : List KeyFactor :=
    if 70 < financialScore then [.strongFinancial]
    else if financialScore < 40 then [.weakFinancial] else []
  let l2 : List KeyFactor :=
    if truthy m.pe ∧ (m.pe.getD 0) < 15 then [.attractivePE (m.pe.getD 0)]
    else if truthy m.pe ∧ 25 < (m.pe.getD 0) then [.highPE (m.pe.getD 0)] else []
  let l3 : List KeyFactor :=
    if truthy m.revenueGrowth ∧ 0.15 < (m.revenueGrowth.getD 0) then
      [.strongRevenueGrowth (m.revenueGrowth.getD 0)]
    else if truthy m.revenueGrowth ∧ (m.revenueGrowth.getD 0) < 0 then
      [.decliningRevenue (m.revenueGrowth.getD 0)] else []
  let l4 : List KeyFactor :=
    if truthy m.dividendYield ∧ 0.04 < (m.dividendYield.getD 0) then
      [.attractiveDividend (m.dividendYield.getD 0)] else []
  let l5 : List KeyFactor :=
    if truthy m.beta ∧ 1.5 < (m.beta.getD 0) then [.highBeta (m.beta.getD 0)]
    else if truthy m.beta ∧ (m.beta.getD 0) < 0.8 then
      [.lowBeta (m.beta.getD 0)] else []
  let l6 : List KeyFactor :=
    if truthy m.debtToEquity ∧ 2.0 < (m.debtToEquity.getD 0) then [.highDebt]
    else if truthy m.debtToEquity ∧ (m.debtToEquity.getD 0) < 0.5 then
      [.conservativeDebt] else []
  (l1 ++ l2 ++ l3 ++ l4 ++ l5 ++ l6).take 5

/-- An IEEE-754 double restricted to the values the RSI pipeline can
produce: a finite value, positive infinity, or NaN.  The rolling average
gain and loss feeding the division are sums of `max(..., 0)` terms, so
they are nonnegative and the negative-infinity case cannot arise. -/
inductive FQ where
  | fin (q : ℚ)
  | inf
  | nan
deriving DecidableEq

/-- `rs = gain / loss` under float semantics for nonnegative operands:
a positive value over zero is `+inf`, `0/0` is NaN, otherwise the exact
quotient. -/
def rsDiv (gain loss : ℚ) : FQ :=
  if loss = 0 then (if gain = 0 then .nan else .inf) else .fin (gain / loss)

/-- `rsi = 100 - (100 / (1 + rs))` under float semantics: an infinite
`rs` gives `100 - 0 = 100`, NaN propagates, and for the finite case
`rs ≥ 0` holds (quotient of nonnegative rolling means), so `1 + rs > 0`
and the arithmetic is exact. -/
def rsiOfRS : FQ → FQ
  | .fin r => .fin (100 - 100 / (1 + r))
  | .inf => .fin 100
  | .nan => .nan

/-- `close.diff()` without its leading NaN: the consecutive differences
of the close column. -/
def deltas : List ℚ → List ℚ
  | a :: b :: t => (b - a) :: deltas (b :: t)
  | _ => []

/-- `delta.where(delta > 0, 0)`: the clipped gains.  The leading NaN of
`diff()` fails the `> 0` comparison and is replaced by `0`, hence the
`0 ::`. -/
def gains : List ℚ → List ℚ
  | [] => []
  | c :: cs => 0 :: (deltas (c :: cs)).map (fun d => max d 0)

/-- `(-delta.where(delta < 0, 0))`: the clipped losses; the leading NaN
again becomes `0`. -/
def losses : List ℚ → List ℚ
  | [] => []
  | c :: cs => 0 :: (deltas (c :: cs)).map (fun d => max (-d) 0)

/-- The 14-element rolling window ending at position `t`
(`rolling(window=14)` is full from `t = 13` on). -/
def window14 (l : List ℚ) (t : ℕ) : List ℚ :=
  (l.drop (t + 1 - 14)).take 14

/-- `gain.rolling(window=14).mean()` at position `t ≥ 13`. -/
def avgGain (closes : List ℚ) (t : ℕ) : ℚ :=
  (window14 (gains closes) t).sum / 14

/-- `loss.rolling(window=14).mean()` at position `t ≥ 13`. -/
def avgLoss (closes : List ℚ) (t : ℕ) : ℚ :=
  (window14 (losses closes) t).sum / 14

/-- `StockAnalyzer.calculate_rsi` at position `t` of the returned series,
defined for `t ≥ 13` (earlier positions are NaN from the partial rolling
window, and the function returns `None` outright below 14 bars). -/
def rsiAt (closes : List ℚ) (t : ℕ) : FQ :=
  rsiOfRS (rsDiv (avgGain closes t) (avgLoss closes t))

/-- `Close.pct_change().dropna()`: daily relative changes. -/
def pctChanges : List ℚ → List ℚ
  | p :: c :: t => ((c - p) / p) :: pctChanges (c :: t)
  | _ => []

/-- `1 + returns`, the factors whose cumulative product is the
cumulative-return curve. -/
def growthFactors (closes : List ℚ) : List ℚ :=
  (pctChanges closes).map (fun r => 1 + r)

/-- `cumprod` with running accumulator: element `i` is
`acc * x_0 * ... * x_i`. -/
def cumsIn (acc : ℚ) : List ℚ → List ℚ
  | [] => []
  | f :: fs => (acc * f) :: cumsIn (acc * f) fs

/-- `(1 + returns).cumprod()`. -/
def cumulativeReturns (closes : List ℚ) : List ℚ :=
  cumsIn 1 (growthFactors closes)

/-- `expanding().max()` continued from a running maximum `m`. -/
def expandingMaxFrom (m : ℚ) : List ℚ → List ℚ
  | [] => []
  | x :: xs => max m x :: expandingMaxFrom (max m x) xs

/-- `cumulative_returns.expanding().max()`: the running maximum, seeded
by the first element. -/
def expandingMax : List ℚ → List ℚ
  | [] => []
  | x :: xs => x :: expandingMaxFrom x xs

/-- `(cumulative_returns - running_max) / running_max`, elementwise. -/
def drawdownsOf (closes : List ℚ) : List ℚ :=
  List.zipWith (fun c m => (c - m) / m)
    (cumulativeReturns closes) (expandingMax (cumulativeReturns closes))

/-- `Series.min()`: the minimum of a nonempty list, `none` when empty. -/
def minQ : List ℚ → Option ℚ
  | [] => none
  | x :: xs => some (xs.foldl min x)

/-- The `max_drawdown` entry of
`FinancialMetrics.calculate_price_metrics`: absent below 252 bars
(the `if len(hist_data) < 252: return price_metrics` guard), otherwise
the minimum of the drawdown curve. -/
def maxDrawdown (hist : List Bar) : Option ℚ :=
  if hist.length < 252 then none
  else minQ (drawdownsOf (closesOf hist))

/-- Every bucket function of the engine awards between 0 and 25 points. -/
theorem profitMarginPts_bound (x : ℚ) : 0 ≤ profitMarginPts x ∧ profitMarginPts x ≤ 25 := by
  unfold profitMarginPts; split_ifs <;> norm_num

theorem roePts_bound (x : ℚ) : 0 ≤ roePts x ∧ roePts x ≤ 25 := by
  unfold roePts; split_ifs <;> norm_num

theorem debtToEquityPts_bound (x : ℚ) : 0 ≤ debtToEquityPts x ∧ debtToEquityPts x ≤ 25 := by
  unfold debtToEquityPts; split_ifs <;> norm_num

theorem currentRatioPts_bound (x : ℚ) : 0 ≤ currentRatioPts x ∧ currentRatioPts x ≤ 25 := by
  unfold currentRatioPts; split_ifs <;> norm_num

theorem pePts_bound (x : ℚ) : 0 ≤ pePts x ∧ pePts x ≤ 25 := by
  unfold pePts; split_ifs <;> norm_num

theorem pbPts_bound (x : ℚ) : 0 ≤ pbPts x ∧ pbPts x ≤ 25 := by
  unfold pbPts; split_ifs <;> norm_num

theorem psPts_bound (x : ℚ) : 0 ≤ psPts x ∧ psPts x ≤ 25 := by
  unfold psPts; split_ifs <;> norm_num

theorem growthPts_bound (x : ℚ) : 0 ≤ growthPts x ∧ growthPts x ≤ 25 := by
  unfold growthPts; split_ifs <;> norm_num

theorem techMomentumPts_bound (x : ℚ) : 0 ≤ techMomentumPts x ∧ techMomentumPts x ≤ 25 := by
  unfold techMomentumPts; split_ifs <;> norm_num

theorem momentumPts_bound (x : ℚ) : 0 ≤ momentumPts x ∧ momentumPts x ≤ 25 := by
  unfold momentumPts; split_ifs <;> norm_num

/-- A present-or-absent factor block built from a bounded bucket function
awards at most 25 points per counted factor. -/
theorem optFactor_bound (f : ℚ → ℚ) (hf : ∀ x, 0 ≤ f x ∧ f x ≤ 25) (o : Option ℚ) :
    0 ≤ (optFactor f o).1 ∧ (optFactor f o).1 ≤ 25 * (optFactor f o).2 := by
  cases o with
  | none => simp [optFactor]
  | some x => simpa [optFactor] using hf x

theorem optPosFactor_bound (f : ℚ → ℚ) (hf : ∀ x, 0 ≤ f x ∧ f x ≤ 25) (o : Option ℚ) :
    0 ≤ (optPosFactor f o).1 ∧ (optPosFactor f o).1 ≤ 25 * (optPosFactor f o).2 := by
  cases o with
  | none => simp [optPosFactor]
  | some x =>
    by_cases h : 0 < x
    · simpa [optPosFactor, h] using hf x
    · simp [optPosFactor, h]

/-- Summing factor blocks that each award at most 25 points per counted
factor keeps the total below 25 per factor. -/
theorem sum_factor_bound (ps : List (ℚ × ℕ))
    (h : ∀ p ∈ ps, 0 ≤ p.1 ∧ p.1 ≤ 25 * p.2) :
    0 ≤ (ps.map Prod.fst).sum ∧ (ps.map Prod.fst).sum ≤ 25 * ((ps.map Prod.snd).sum : ℚ) := by
  induction ps with
  | nil => simp
  | cons p ps ih =>
    have hp := h p (List.mem_cons_self p ps)
    have ht := ih (fun q hq => h q (List.mem_cons_of_mem p hq))
    simp only [List.map_cons, List.sum_cons, Nat.cast_add]
    constructor
    · have := hp.1; have := ht.1; linarith
    · have := hp.2; have := ht.2; push_cast; push_cast at ht; linarith

/-- The shared `score / factors if factors > 0 else 50` combiner is
either the neutral 50 (no factor present) or a value in `[0, 25]`. -/
theorem scoreAvg_cases (ps : List (ℚ × ℕ))
    (h : ∀ p ∈ ps, 0 ≤ p.1 ∧ p.1 ≤ 25 * p.2) :
    scoreAvg ps = 50 ∨ (0 ≤ scoreAvg ps ∧ scoreAvg ps ≤ 25) := by
  obtain ⟨h0, h25⟩ := sum_factor_bound ps h
  unfold scoreAvg
  by_cases hf : 0 < (ps.map Prod.snd).sum
  · right
    have hfq : (0 : ℚ) < ((ps.map Prod.snd).sum : ℚ) := by exact_mod_cast hf
    rw [if_pos hf]
    refine ⟨div_nonneg h0 hfq.le, ?_⟩
    rw [div_le_iff₀ hfq]
    linarith
  · left; rw [if_neg hf]

/-- The engine's financial-health sub-score is the neutral 50 or at most
25 (each factor contributes at most 25 points and the sum is averaged). -/
theorem financialHealth_cases (m : Metrics) :
    calculateFinancialHealthScore m = 50 ∨
      (0 ≤ calculateFinancialHealthScore m ∧ calculateFinancialHealthScore m ≤ 25) := by
  unfold calculateFinancialHealthScore
  refine scoreAvg_cases _ ?_
  intro p hp
  simp only [List.mem_cons, List.mem_singleton, List.not_mem_nil, or_false] at hp
  rcases hp with h | h | h | h <;> subst h
  · exact optFactor_bound _ profitMarginPts_bound _
  · exact optFactor_bound _ roePts_bound _
  · exact optFactor_bound _ debtToEquityPts_bound _
  · exact optFactor_bound _ currentRatioPts_bound _

/-- The valuation sub-score is 50 or at most 25. -/
theorem valuation_cases (m : Metrics) :
    calculateValuationScore m = 50 ∨
      (0 ≤ calculateValuationScore m ∧ calculateValuationScore m ≤ 25) := by
  unfold calculateValuationScore
  refine scoreAvg_cases _ ?_
  intro p hp
  simp only [List.mem_cons, List.mem_singleton, List.not_mem_nil, or_false] at hp
  rcases hp with h | h | h <;> subst h
  · exact optPosFactor_bound _ pePts_bound _
  · exact optPosFactor_bound _ pbPts_bound _
  · exact optPosFactor_bound _ psPts_bound _

/-- The growth sub-score is 50 or at most 25. -/
theorem growth_cases (m : Metrics) :
    calculateGrowthScore m = 50 ∨
      (0 ≤ calculateGrowthScore m ∧ calculateGrowthScore m ≤ 25) := by
  unfold calculateGrowthScore
  refine scoreAvg_cases _ ?_
  intro p hp
  simp only [List.mem_cons, List.mem_singleton, List.not_mem_nil, or_false] at hp
  rcases hp with h | h <;> subst h
  · exact optFactor_bound _ growthPts_bound _
  · exact optFactor_bound _ growthPts_bound _

/-- Each of the three blocks of the technical score stays below 25 points
per counted factor. -/
theorem maPart_bound (hist : List Bar) :
    0 ≤ (maPart hist).1 ∧ (maPart hist).1 ≤ 25 * (maPart hist).2 := by
  unfold maPart
  by_cases h : 20 ≤ hist.length
  · rw [if_pos h]; dsimp only; constructor <;> (split_ifs <;> norm_num)
  · rw [if_neg h]; norm_num

theorem momPart_bound (hist : List Bar) :
    0 ≤ (momPart hist).1 ∧ (momPart hist).1 ≤ 25 * (momPart hist).2 := by
  unfold momPart
  split_ifs with h
  · simpa using techMomentumPts_bound _
  · simp

theorem volPart_bound (hist : List Bar) :
    0 ≤ (volPart hist).1 ∧ (volPart hist).1 ≤ 25 * (volPart hist).2 := by
  unfold volPart
  by_cases h : 20 ≤ hist.length
  · rw [if_pos h]; dsimp only; constructor <;> (split_ifs <;> norm_num)
  · rw [if_neg h]; norm_num

/-- The technical sub-score is 50 or at most 25. -/
theorem technical_cases (hist : List Bar) :
    calculateTechnicalScore hist = 50 ∨
      (0 ≤ calculateTechnicalScore hist ∧ calculateTechnicalScore hist ≤ 25) := by
  unfold calculateTechnicalScore
  split_ifs with h
  · left; rfl
  · refine scoreAvg_cases _ ?_
    intro p hp
    simp only [List.mem_cons, List.mem_singleton, List.not_mem_nil, or_false] at hp
    rcases hp with h | h | h <;> subst h
    · exact maPart_bound _
    · exact momPart_bound _
    · exact volPart_bound _

/-- Every value a nonempty bucket-score list can average to lies in
`[0, 25]`. -/
theorem listMean_bound (l : List ℚ) (hne : l.isEmpty = false)
    (h : ∀ x ∈ l, 0 ≤ x ∧ x ≤ 25) :
    0 ≤ l.sum / (l.length : ℚ) ∧ l.sum / (l.length : ℚ) ≤ 25 := by
  have hlen : 0 < l.length := by
    cases l with
    | nil => simp at hne
    | cons a t => simp
  have hlenq : (0 : ℚ) < (l.length : ℚ) := by exact_mod_cast hlen
  have h0 : 0 ≤ l.sum := List.sum_nonneg (fun x hx => (h x hx).1)
  have h25 : l.sum ≤ 25 * (l.length : ℚ) := by
    clear hne hlen hlenq h0
    induction l with
    | nil => simp
    | cons a t ih =>
      have ha := h a (List.mem_cons_self a t)
      have ht := ih (fun x hx => h x (List.mem_cons_of_mem a hx))
      simp only [List.sum_cons, List.length_cons, Nat.cast_add, Nat.cast_one]
      have := ha.2; linarith
  exact ⟨div_nonneg h0 hlenq.le, by rw [div_le_iff₀ hlenq]; linarith⟩

/-- The momentum sub-score is 50 or at most 25. -/
theorem momentum_cases (hist : List Bar) :
    calculateMomentumScore hist = 50 ∨
      (0 ≤ calculateMomentumScore hist ∧ calculateMomentumScore hist ≤ 25) := by
  unfold calculateMomentumScore
  split_ifs with h hempty
  · left; rfl
  · left; rfl
  · right
    refine listMean_bound _ (by simpa using hempty) ?_
    intro x hx
    simp only [momentumScores, List.mem_filterMap] at hx
    obtain ⟨p, _, hp⟩ := hx
    split_ifs at hp with hc
    cases hp
    exact momentumPts_bound _

/-- A value that is the neutral 50 or lies in `[0, 25]` lies in `[0, 100]`. -/
theorem cases_to_range (x : ℚ) (h : x = 50 ∨ (0 ≤ x ∧ x ≤ 25)) :
    0 ≤ x ∧ x ≤ 100 := by
  rcases h with rfl | ⟨a, b⟩
  · norm_num
  · exact ⟨a, by linarith⟩

/-- A value that is the neutral 50 or lies in `[0, 25]` is at most 50. -/
theorem cases_to_le50 (x : ℚ) (h : x = 50 ∨ (0 ≤ x ∧ x ≤ 25)) : x ≤ 50 := by
  rcases h with rfl | ⟨_, b⟩
  · exact le_refl 50
  · linarith

/-- Claim C1: on `[0, 100]` the five score bands of `get_recommendation`
assign exactly the claimed action and confidence each, and the bands
cover the interval with no gaps and no overlaps. -/
theorem getRecommendation_action_bands (s : ℚ) (h0 : 0 ≤ s) (h100 : s ≤ 100) :
    ((75 ≤ s → actionOf s = RecAction.strongBuy ∧ confidenceOf s = min s 95) ∧
     (60 ≤ s → s < 75 → actionOf s = RecAction.buy ∧ confidenceOf s = s) ∧
     (40 ≤ s → s < 60 → actionOf s = RecAction.hold ∧ confidenceOf s = 100 - |s - 50| * 2) ∧
     (25 ≤ s → s < 40 → actionOf s = RecAction.sell ∧ confidenceOf s = 100 - s) ∧
     (s < 25 → actionOf s = RecAction.strongSell ∧ confidenceOf s = min (100 - s) 95)) ∧
    ((75 ≤ s ∨ (60 ≤ s ∧ s < 75) ∨ (40 ≤ s ∧ s < 60) ∨ (25 ≤ s ∧ s < 40) ∨ s < 25) ∧
     ¬(75 ≤ s ∧ (60 ≤ s ∧ s < 75)) ∧ ¬(75 ≤ s ∧ (40 ≤ s ∧ s < 60)) ∧
     ¬(75 ≤ s ∧ (25 ≤ s ∧ s < 40)) ∧ ¬(75 ≤ s ∧ s < 25) ∧
     ¬((60 ≤ s ∧ s < 75) ∧ (40 ≤ s ∧ s < 60)) ∧ ¬((60 ≤ s ∧ s < 75) ∧ (25 ≤ s ∧ s < 40)) ∧
     ¬((60 ≤ s ∧ s < 75) ∧ s < 25) ∧ ¬((40 ≤ s ∧ s < 60) ∧ (25 ≤ s ∧ s < 40)) ∧
     ¬((40 ≤ s ∧ s < 60) ∧ s < 25) ∧ ¬((25 ≤ s ∧ s < 40) ∧ s < 25)) := by
  constructor
  · refine ⟨?_, ?_, ?_, ?_, ?_⟩
    · intro h
      exact ⟨by simp [actionOf, h], by simp [confidenceOf, h]⟩
    · intro h60 h75
      have hn : ¬ (75:ℚ) ≤ s := by linarith
      exact ⟨by simp [actionOf, hn, h60], by simp [confidenceOf, hn, h60]⟩
    · intro h40 h60
      have hn75 : ¬ (75:ℚ) ≤ s := by linarith
      have hn60 : ¬ (60:ℚ) ≤ s := by linarith
      exact ⟨by simp [actionOf, hn75, hn60, h40], by simp [confidenceOf, hn75, hn60, h40]⟩
    · intro h25 h40
      have hn75 : ¬ (75:ℚ) ≤ s := by linarith
      have hn60 : ¬ (60:ℚ) ≤ s := by linarith
      have hn40 : ¬ (40:ℚ) ≤ s := by linarith
      exact ⟨by simp [actionOf, hn75, hn60, hn40, h25],
             by simp [confidenceOf, hn75, hn60, hn40, h25]⟩
    · intro h25
      have hn75 : ¬ (75:ℚ) ≤ s := by linarith
      have hn60 : ¬ (60:ℚ) ≤ s := by linarith
      have hn40 : ¬ (40:ℚ) ≤ s := by linarith
      have hn25 : ¬ (25:ℚ) ≤ s := by linarith
      exact ⟨by simp [actionOf, hn75, hn60, hn40, hn25],
             by simp [confidenceOf, hn75, hn60, hn40, hn25]⟩
  · refine ⟨?_, ?_, ?_, ?_, ?_, ?_, ?_, ?_, ?_, ?_, ?_⟩
    · rcases le_or_lt 75 s with h | h
      · exact Or.inl h
      rcases le_or_lt 60 s with h2 | h2
      · exact Or.inr (Or.inl ⟨h2, h⟩)
      rcases le_or_lt 40 s with h3 | h3
      · exact Or.inr (Or.inr (Or.inl ⟨h3, h2⟩))
      rcases le_or_lt 25 s with h4 | h4
      · exact Or.inr (Or.inr (Or.inr (Or.inl ⟨h4, h3⟩)))
      · exact Or.inr (Or.inr (Or.inr (Or.inr h4)))
    · rintro ⟨a, _, c⟩; linarith
    · rintro ⟨a, _, c⟩; linarith
    · rintro ⟨a, _, c⟩; linarith
    · rintro ⟨a, b⟩; linarith
    · rintro ⟨⟨a, _⟩, _, c⟩; linarith
    · rintro ⟨⟨a, _⟩, _, c⟩; linarith
    · rintro ⟨⟨a, _⟩, b⟩; linarith
    · rintro ⟨⟨a, _⟩, _, c⟩; linarith
    · rintro ⟨⟨a, _⟩, b⟩; linarith
    · rintro ⟨⟨a, _⟩, b⟩; linarith

/-- Witness for C1: the five bands evaluated at 80, 65, 50, 30 and 10. -/
theorem getRecommendation_action_bands_witness :
    (actionOf 80 = RecAction.strongBuy ∧ confidenceOf 80 = min 80 95) ∧
    (actionOf 65 = RecAction.buy ∧ confidenceOf 65 = 65) ∧
    (actionOf 50 = RecAction.hold ∧ confidenceOf 50 = 100 - |(50:ℚ) - 50| * 2) ∧
    (actionOf 30 = RecAction.sell ∧ confidenceOf 30 = 100 - 30) ∧
    (actionOf 10 = RecAction.strongSell ∧ confidenceOf 10 = min (100 - 10) 95) :=
  ⟨(getRecommendation_action_bands 80 (by norm_num) (by norm_num)).1.1 (by norm_num),
   (getRecommendation_action_bands 65 (by norm_num) (by norm_num)).1.2.1
     (by norm_num) (by norm_num),
   (getRecommendation_action_bands 50 (by norm_num) (by norm_num)).1.2.2.1
     (by norm_num) (by norm_num),
   (getRecommendation_action_bands 30 (by norm_num) (by norm_num)).1.2.2.2.1
     (by norm_num) (by norm_num),
   (getRecommendation_action_bands 10 (by norm_num) (by norm_num)).1.2.2.2.2 (by norm_num)⟩

/-- Claim C2: the five composite weights sum to exactly 1, the overall
score of `get_recommendation` is the weighted sum of the five sub-scores,
and as a convex combination it lies between their minimum and maximum. -/
theorem overallScore_convex (f v t g mo : ℚ) :
    wFinancial + wValuation + wTechnical + wGrowth + wMomentum = 1 ∧
    (∀ (m : Metrics) (hist : List Bar), recommendOverall m hist =
      overallScore (calculateFinancialHealthScore m) (calculateValuationScore m)
        (calculateTechnicalScore hist) (calculateGrowthScore m)
        (calculateMomentumScore hist)) ∧
    min f (min v (min t (min g mo))) ≤ overallScore f v t g mo ∧
    overallScore f v t g mo ≤ max f (max v (max t (max g mo))) := by
  refine ⟨by norm_num [wFinancial, wValuation, wTechnical, wGrowth, wMomentum],
          fun m hist => rfl, ?_, ?_⟩
  · have h1 : min f (min v (min t (min g mo))) ≤ f := min_le_left _ _
    have h2 : min f (min v (min t (min g mo))) ≤ v :=
      le_trans (min_le_right _ _) (min_le_left _ _)
    have h3 : min f (min v (min t (min g mo))) ≤ t :=
      le_trans (min_le_right _ _) (le_trans (min_le_right _ _) (min_le_left _ _))
    have h4 : min f (min v (min t (min g mo))) ≤ g :=
      le_trans (min_le_right _ _) (le_trans (min_le_right _ _)
        (le_trans (min_le_right _ _) (min_le_left _ _)))
    have h5 : min f (min v (min t (min g mo))) ≤ mo :=
      le_trans (min_le_right _ _) (le_trans (min_le_right _ _)
        (le_trans (min_le_right _ _) (min_le_right _ _)))
    simp only [overallScore, wFinancial, wValuation, wTechnical, wGrowth, wMomentum]
    linarith
  · have h1 : f ≤ max f (max v (max t (max g mo))) := le_max_left _ _
    have h2 : v ≤ max f (max v (max t (max g mo))) :=
      le_trans (le_max_left _ _) (le_max_right _ _)
    have h3 : t ≤ max f (max v (max t (max g mo))) :=
      le_trans (le_trans (le_max_left _ _) (le_max_right _ _)) (le_max_right _ _)
    have h4 : g ≤ max f (max v (max t (max g mo))) :=
      le_trans (le_trans (le_trans (le_max_left _ _) (le_max_right _ _))
        (le_max_right _ _)) (le_max_right _ _)
    have h5 : mo ≤ max f (max v (max t (max g mo))) :=
      le_trans (le_trans (le_trans (le_max_right _ _) (le_max_right _ _))
        (le_max_right _ _)) (le_max_right _ _)
    simp only [overallScore, wFinancial, wValuation, wTechnical, wGrowth, wMomentum]
    linarith

/-- Claim C3: each of the five sub-score functions is total by
construction, always returns a value in `[0, 100]`, and returns exactly
the neutral 50 when its required inputs are absent (all relevant
fundamentals fields missing) or insufficient (too few bars). -/
theorem subScores_total_range_default (m : Metrics) (hist : List Bar) :
    (0 ≤ calculateFinancialHealthScore m ∧ calculateFinancialHealthScore m ≤ 100) ∧
    (0 ≤ calculateValuationScore m ∧ calculateValuationScore m ≤ 100) ∧
    (0 ≤ calculateTechnicalScore hist ∧ calculateTechnicalScore hist ≤ 100) ∧
    (0 ≤ calculateGrowthScore m ∧ calculateGrowthScore m ≤ 100) ∧
    (0 ≤ calculateMomentumScore hist ∧ calculateMomentumScore hist ≤ 100) ∧
    (m.profitMargin = none → m.roe = none → m.debtToEquity = none →
      m.currentRatioVal = none → calculateFinancialHealthScore m = 50) ∧
    (m.pe = none → m.pb = none → m.ps = none → calculateValuationScore m = 50) ∧
    (hist.length < 50 → calculateTechnicalScore hist = 50) ∧
    (m.revenueGrowth = none → m.earningsGrowth = none → calculateGrowthScore m = 50) ∧
    (hist.length < 30 → calculateMomentumScore hist = 50) := by
  refine ⟨cases_to_range _ (financialHealth_cases m),
          cases_to_range _ (valuation_cases m),
          cases_to_range _ (technical_cases hist),
          cases_to_range _ (growth_cases m),
          cases_to_range _ (momentum_cases hist), ?_, ?_, ?_, ?_, ?_⟩
  · intro h1 h2 h3 h4
    simp [calculateFinancialHealthScore, scoreAvg, optFactor, h1, h2, h3, h4]
  · intro h1 h2 h3
    simp [calculateValuationScore, scoreAvg, optPosFactor, h1, h2, h3]
  · intro h
    simp [calculateTechnicalScore, h]
  · intro h1 h2
    simp [calculateGrowthScore, scoreAvg, optFactor, h1, h2]
  · intro h
    simp [calculateMomentumScore, h]

/-- Witness for C3: with every fundamentals field absent and an empty
price series, every sub-score is exactly 50. -/
theorem subScores_total_range_default_witness :
    calculateFinancialHealthScore {} = 50 ∧ calculateValuationScore {} = 50 ∧
    calculateTechnicalScore [] = 50 ∧ calculateGrowthScore {} = 50 ∧
    calculateMomentumScore [] = 50 :=
  ⟨(subScores_total_range_default {} []).2.2.2.2.2.1 rfl rfl rfl rfl,
   (subScores_total_range_default {} []).2.2.2.2.2.2.1 rfl rfl rfl,
   (subScores_total_range_default {} []).2.2.2.2.2.2.2.1 (by decide),
   (subScores_total_range_default {} []).2.2.2.2.2.2.2.2.1 rfl rfl,
   (subScores_total_range_default {} []).2.2.2.2.2.2.2.2.2 (by decide)⟩

/-- Claim C5: every sub-score is either the neutral 50 or at most 25
(each factor contributes at most 25 points and the sum is divided by the
factor count), hence the overall score never exceeds 50 and the BUY and
STRONG BUY actions are unreachable for every input. -/
theorem overall_le_50_buy_unreachable (m : Metrics) (hist : List Bar) :
    (calculateFinancialHealthScore m = 50 ∨ calculateFinancialHealthScore m ≤ 25) ∧
    (calculateValuationScore m = 50 ∨ calculateValuationScore m ≤ 25) ∧
    (calculateTechnicalScore hist = 50 ∨ calculateTechnicalScore hist ≤ 25) ∧
    (calculateGrowthScore m = 50 ∨ calculateGrowthScore m ≤ 25) ∧
    (calculateMomentumScore hist = 50 ∨ calculateMomentumScore hist ≤ 25) ∧
    recommendOverall m hist ≤ 50 ∧
    recommendAction m hist ≠ RecAction.buy ∧
    recommendAction m hist ≠ RecAction.strongBuy := by
  have hf := cases_to_le50 _ (financialHealth_cases m)
  have hv := cases_to_le50 _ (valuation_cases m)
  have ht := cases_to_le50 _ (technical_cases hist)
  have hg := cases_to_le50 _ (growth_cases m)
  have hmo := cases_to_le50 _ (momentum_cases hist)
  have hov : recommendOverall m hist ≤ 50 := by
    simp only [recommendOverall, overallScore, wFinancial, wValuation, wTechnical,
      wGrowth, wMomentum]
    linarith
  have weaken : ∀ x : ℚ, (x = 50 ∨ (0 ≤ x ∧ x ≤ 25)) → (x = 50 ∨ x ≤ 25) := by
    rintro x (rfl | ⟨_, b⟩)
    · exact Or.inl rfl
    · exact Or.inr b
  refine ⟨weaken _ (financialHealth_cases m), weaken _ (valuation_cases m),
          weaken _ (technical_cases hist), weaken _ (growth_cases m),
          weaken _ (momentum_cases hist), hov, ?_, ?_⟩
  · unfold recommendAction actionOf
    have h75 : ¬ (75:ℚ) ≤ recommendOverall m hist := by linarith
    have h60 : ¬ (60:ℚ) ≤ recommendOverall m hist := by linarith
    rw [if_neg h75, if_neg h60]
    split_ifs <;> decide
  · unfold recommendAction actionOf
    have h75 : ¬ (75:ℚ) ≤ recommendOverall m hist := by linarith
    rw [if_neg h75]
    split_ifs <;> decide

/-- Dropping from a constant list leaves a constant list. -/
theorem replicate_drop {α : Type} (a : α) :
    ∀ (k n : ℕ), (List.replicate n a).drop k = List.replicate (n - k) a := by
  intro k
  induction k with
  | zero => intro n; simp
  | succ k ih =>
    intro n
    cases n with
    | zero => simp
    | succ n => simpa [List.replicate_succ] using ih n

/-- The sum of a constant rational list. -/
theorem replicate_sum (a : ℚ) : ∀ n : ℕ, (List.replicate n a).sum = n * a := by
  intro n
  induction n with
  | zero => simp
  | succ n ih => simp [List.replicate_succ, ih]; ring

/-- Every in-range lookup in a constant list yields the constant. -/
theorem replicate_getD (a d : ℚ) :
    ∀ (n i : ℕ), i < n → (List.replicate n a).getD i d = a := by
  intro n
  induction n with
  | zero => intro i hi; omega
  | succ n ih =>
    intro i hi
    cases i with
    | zero => simp [List.replicate_succ]
    | succ i => simpa [List.replicate_succ] using ih i (by omega)

/-- The trailing-window mean of a constant series is the constant. -/
theorem meanLastK_replicate (n k : ℕ) (a : ℚ) (h0 : 0 < k) (h : k ≤ n) :
    meanLastK (List.replicate n a) k = a := by
  unfold meanLastK
  rw [List.length_replicate, replicate_drop, List.length_replicate, replicate_sum]
  have hnk : n - (n - k) = k := by omega
  rw [hnk]
  have hk : ((k : ℕ) : ℚ) ≠ 0 := Nat.cast_ne_zero.mpr (by omega)
  field_simp

/-- The close column of a constant-bar history. -/
theorem closesOf_replicate (n : ℕ) (b : Bar) :
    closesOf (List.replicate n b) = List.replicate n b.close := by
  simp [closesOf, List.map_replicate]

/-- The volume column of a constant-bar history. -/
theorem volumesOf_replicate (n : ℕ) (b : Bar) :
    volumesOf (List.replicate n b) = List.replicate n b.volume := by
  simp [volumesOf, List.map_replicate]

/-- On a constant price series with at least 50 bars the technical score
lands on 10 + 10 + 15 points over 3 factors: exactly 35/3. -/
theorem technical_const (n : ℕ) (h : 50 ≤ n) :
    calculateTechnicalScore (List.replicate n (Bar.mk 1 1)) = 35 / 3 := by
  have hlen : (List.replicate n (Bar.mk 1 1)).length = n := List.length_replicate n _
  have hcl : closesOf (List.replicate n (Bar.mk 1 1)) = List.replicate n (1:ℚ) :=
    closesOf_replicate n _
  have hvl : volumesOf (List.replicate n (Bar.mk 1 1)) = List.replicate n (1:ℚ) :=
    volumesOf_replicate n _
  have hlast : lastClose (List.replicate n (Bar.mk 1 1)) = 1 := by
    unfold lastClose
    rw [hcl, hlen]
    exact replicate_getD _ _ _ _ (by omega)
  have hma : maPart (List.replicate n (Bar.mk 1 1)) = (10, 1) := by
    unfold maPart
    rw [if_pos (by rw [hlen]; omega), hcl, hlast, meanLastK_replicate n 20 1 (by norm_num) (by omega)]
    norm_num
  have hmom : momPart (List.replicate n (Bar.mk 1 1)) = (10, 1) := by
    unfold momPart
    rw [if_pos (by rw [hlen]; omega), hcl, hlen, hlast,
        replicate_getD 1 0 n (n - 10) (by omega)]
    norm_num [techMomentumPts]
  have hvol : volPart (List.replicate n (Bar.mk 1 1)) = (15, 1) := by
    unfold volPart
    rw [if_pos (by rw [hlen]; omega), hvl,
        meanLastK_replicate n 20 1 (by norm_num) (by omega),
        meanLastK_replicate n 5 1 (by norm_num) (by omega)]
    norm_num
  unfold calculateTechnicalScore
  rw [if_neg (by rw [hlen]; omega), hma, hmom, hvol]
  norm_num [scoreAvg]

/-- On a constant price series with at least 30 bars every lookback
change is 0, each bucket awards 8 points, and the momentum score is 8. -/
theorem momentum_const (n : ℕ) (h : 30 ≤ n) :
    calculateMomentumScore (List.replicate n (Bar.mk 1 1)) = 8 := by
  have hlen : (List.replicate n (Bar.mk 1 1)).length = n := List.length_replicate n _
  have hcl : closesOf (List.replicate n (Bar.mk 1 1)) = List.replicate n (1:ℚ) :=
    closesOf_replicate n _
  have c5 : 5 ≤ n := by omega
  have c10 : 10 ≤ n := by omega
  have c20 : 20 ≤ n := by omega
  have g1 : (List.replicate n (1:ℚ)).getD (n - 1) 0 = 1 := replicate_getD _ _ _ _ (by omega)
  have g5 : (List.replicate n (1:ℚ)).getD (n - 5) 0 = 1 := replicate_getD _ _ _ _ (by omega)
  have g10 : (List.replicate n (1:ℚ)).getD (n - 10) 0 = 1 := replicate_getD _ _ _ _ (by omega)
  have g20 : (List.replicate n (1:ℚ)).getD (n - 20) 0 = 1 := replicate_getD _ _ _ _ (by omega)
  have hms : momentumScores (List.replicate n (Bar.mk 1 1)) = [8, 8, 8] := by
    unfold momentumScores
    rw [hlen, hcl]
    simp only [List.filterMap_cons, List.filterMap_nil, if_pos c5, if_pos c10, if_pos c20,
      g1, g5, g10, g20]
    norm_num [momentumPts]
  unfold calculateMomentumScore
  rw [if_neg (by rw [hlen]; omega), hms]
  norm_num

/-- Full evaluation of the 300-constant-bar, no-fundamentals scenario. -/
theorem constSeries_eval :
    calculateFinancialHealthScore {} = 50 ∧ calculateValuationScore {} = 50 ∧
    calculateGrowthScore {} = 50 ∧
    calculateTechnicalScore (List.replicate 300 (Bar.mk 1 1)) = 35 / 3 ∧
    calculateMomentumScore (List.replicate 300 (Bar.mk 1 1)) = 8 ∧
    recommendOverall {} (List.replicate 300 (Bar.mk 1 1)) = 2173 / 60 ∧
    recommendAction {} (List.replicate 300 (Bar.mk 1 1)) = RecAction.sell := by
  have hf : calculateFinancialHealthScore {} = 50 := by
    simp [calculateFinancialHealthScore, scoreAvg, optFactor]
  have hv : calculateValuationScore {} = 50 := by
    simp [calculateValuationScore, scoreAvg, optPosFactor]
  have hg : calculateGrowthScore {} = 50 := by
    simp [calculateGrowthScore, scoreAvg, optFactor]
  have ht := technical_const 300 (by norm_num)
  have hmo := momentum_const 300 (by norm_num)
  have hov : recommendOverall {} (List.replicate 300 (Bar.mk 1 1)) = 2173 / 60 := by
    unfold recommendOverall
    rw [hf, hv, hg, ht, hmo]
    norm_num [overallScore, wFinancial, wValuation, wTechnical, wGrowth, wMomentum]
  refine ⟨hf, hv, hg, ht, hmo, hov, ?_⟩
  unfold recommendAction
  rw [hov]
  norm_num [actionOf]

/-- Counterexample to C7: on a 300-bar constant-price, constant-volume
series with no fundamentals, the technical sub-score is not 50 and the
action is not HOLD. -/
theorem constSeries_not_hold :
    calculateTechnicalScore (List.replicate 300 (Bar.mk 1 1)) ≠ 50 ∧
    recommendAction {} (List.replicate 300 (Bar.mk 1 1)) ≠ RecAction.hold := by
  obtain ⟨_, _, _, ht, _, _, ha⟩ := constSeries_eval
  constructor
  · rw [ht]; norm_num
  · rw [ha]; decide

/-- Claim C7 as amended: on 300 constant bars with no fundamentals the
financial, valuation and growth sub-scores default to 50, but the
technical score is 35/3, the momentum score is 8, the overall score is
2173/60, and the action is SELL, not HOLD. -/
theorem constSeries_sell :
    calculateFinancialHealthScore {} = 50 ∧ calculateValuationScore {} = 50 ∧
    calculateGrowthScore {} = 50 ∧
    calculateTechnicalScore (List.replicate 300 (Bar.mk 1 1)) = 35 / 3 ∧
    calculateMomentumScore (List.replicate 300 (Bar.mk 1 1)) = 8 ∧
    recommendOverall {} (List.replicate 300 (Bar.mk 1 1)) = 2173 / 60 ∧
    recommendAction {} (List.replicate 300 (Bar.mk 1 1)) = RecAction.sell :=
  constSeries_eval

/-- Counterexample to C4: on a snapshot whose only present field is a
profit margin of 0.25, the engine scores 25 (its 25-point top bucket)
while the metrics-extractor health index scores 20. -/
theorem healthScorers_differ :
    calculateFinancialHealthScore {profitMargin := some 0.25} = 25 ∧
    getFinancialHealthScore {profitMargin := some 0.25} = 20 ∧
    calculateFinancialHealthScore {profitMargin := some 0.25} ≠
      getFinancialHealthScore {profitMargin := some 0.25} := by
  have h1 : calculateFinancialHealthScore {profitMargin := some 0.25} = 25 := by
    norm_num [calculateFinancialHealthScore, scoreAvg, optFactor, profitMarginPts]
  have h2 : getFinancialHealthScore {profitMargin := some 0.25} = 20 := by
    norm_num [getFinancialHealthScore, optFactor, fmProfitMarginPts]
  exact ⟨h1, h2, by rw [h1, h2]; norm_num⟩

/-- Claim C4 as amended: the engine's financial-health sub-score and the
metrics-extractor's health index agree only in the no-data case, where
both return the neutral 50; their bucket scales differ on present
factors. -/
theorem healthScorers_agree_when_empty (m : Metrics)
    (h1 : m.profitMargin = none) (h2 : m.roe = none) (h3 : m.debtToEquity = none)
    (h4 : m.currentRatioVal = none) (h5 : m.revenueGrowth = none) :
    calculateFinancialHealthScore m = getFinancialHealthScore m := by
  simp [calculateFinancialHealthScore, getFinancialHealthScore, scoreAvg, optFactor,
    h1, h2, h3, h4, h5]

/-- Witness for the amended C4: on the all-absent snapshot both health
scorers return 50. -/
theorem healthScorers_agree_when_empty_witness :
    calculateFinancialHealthScore {} = getFinancialHealthScore {} :=
  healthScorers_agree_when_empty {} rfl rfl rfl rfl rfl

/-- The §8 scenario snapshot: every one of the five health factors in
its top bucket. -/
def topBucketMetrics : Metrics :=
  { profitMargin := some 0.25
    roe := some 0.25
    debtToEquity := some 0.2
    currentRatioVal := some 2.5
    revenueGrowth := some 0.3 }

/-- Evaluation of the all-top-bucket fundamentals scenario of §8. -/
theorem topBucket_eval :
    getFinancialHealthScore topBucketMetrics = 20 ∧
    calculateFinancialHealthScore topBucketMetrics = 25 ∧
    calculateTechnicalScore [] = 50 := by
  refine ⟨?_, ?_, ?_⟩
  · norm_num [topBucketMetrics, getFinancialHealthScore, optFactor, fmProfitMarginPts,
      fmRoePts, fmDebtPts, fmCurrentPts, fmRevGrowthPts]
  · norm_num [topBucketMetrics, calculateFinancialHealthScore, scoreAvg, optFactor,
      profitMarginPts, roePts, debtToEquityPts, currentRatioPts]
  · simp [calculateTechnicalScore]

/-- Counterexample to C6: with every factor in its top bucket neither
health score is 100 — the buckets are averaged, not summed. -/
theorem topBucket_not_100 :
    getFinancialHealthScore topBucketMetrics ≠ 100 ∧
    calculateFinancialHealthScore topBucketMetrics ≠ 100 := by
  obtain ⟨h1, h2, _⟩ := topBucket_eval
  exact ⟨by rw [h1]; norm_num, by rw [h2]; norm_num⟩

/-- Claim C6 as amended: on the all-top-bucket snapshot the §4.2 health
index is exactly 20 (five factors of 20 points averaged), the engine
sub-score is exactly 25, and with no price series the technical score is
50. -/
theorem topBucket_is_20_25 :
    getFinancialHealthScore topBucketMetrics = 20 ∧
    calculateFinancialHealthScore topBucketMetrics = 25 ∧
    calculateTechnicalScore [] = 50 :=
  topBucket_eval

/-- Counterexample to C10: a present zero is dropped like an absent
field — a P/E of 0 leaves the valuation score at the absent-data default
50 instead of being bucketed, and a debt-to-equity of 0 produces no key
factor although the 0.1 value right next to it produces one. -/
theorem zero_dropped_as_missing :
    calculateValuationScore {pe := some 0} = calculateValuationScore {} ∧
    calculateValuationScore {pe := some 0} = 50 ∧
    generateKeyFactors {debtToEquity := some 0} 50 50 50 50 50 = [] ∧
    generateKeyFactors {debtToEquity := some (1/10)} 50 50 50 50 50 =
      [KeyFactor.conservativeDebt] := by
  refine ⟨?_, ?_, ?_, ?_⟩
  · norm_num [calculateValuationScore, scoreAvg, optPosFactor]
  · norm_num [calculateValuationScore, scoreAvg, optPosFactor]
  · norm_num [generateKeyFactors, truthy]
  · norm_num [generateKeyFactors, truthy]

/-- Claim C10 as amended: the health scorers do score a present zero
(is-not-None checks), but `calculate_valuation_score` skips non-positive
ratios, so a zero P/E acts exactly like an absent one, and
`generate_key_factors` tests truthiness, so zero-valued beta or
debt-to-equity emits no factor. -/
theorem zero_vs_absent (m : Metrics) (v : ℚ) (hpe : m.pe = some v) (hv : v ≤ 0) :
    calculateFinancialHealthScore {debtToEquity := some 0} = 25 ∧
    getFinancialHealthScore {debtToEquity := some 0} = 20 ∧
    calculateValuationScore m = calculateValuationScore {m with pe := none} ∧
    generateKeyFactors {beta := some 0} 50 50 50 50 50 = [] ∧
    generateKeyFactors {beta := some (1/2)} 50 50 50 50 50 =
      [KeyFactor.lowBeta (1/2)] := by
  refine ⟨?_, ?_, ?_, ?_, ?_⟩
  · norm_num [calculateFinancialHealthScore, scoreAvg, optFactor, debtToEquityPts]
  · norm_num [getFinancialHealthScore, optFactor, fmDebtPts]
  · have hskip : optPosFactor pePts m.pe = optPosFactor pePts none := by
      rw [hpe]
      simp [optPosFactor, not_lt.mpr hv]
    simp [calculateValuationScore, hskip]
  · norm_num [generateKeyFactors, truthy]
  · norm_num [generateKeyFactors, truthy]

/-- Witness for the amended C10, instantiated at a P/E of exactly 0. -/
theorem zero_vs_absent_witness :
    calculateFinancialHealthScore {debtToEquity := some 0} = 25 ∧
    getFinancialHealthScore {debtToEquity := some 0} = 20 ∧
    calculateValuationScore {pe := some 0} =
      calculateValuationScore {({pe := some 0} : Metrics) with pe := none} ∧
    generateKeyFactors {beta := some 0} 50 50 50 50 50 = [] ∧
    generateKeyFactors {beta := some (1/2)} 50 50 50 50 50 =
      [KeyFactor.lowBeta (1/2)] :=
  zero_vs_absent {pe := some 0} 0 rfl (le_refl 0)

/-- The diff of an `n`-bar series has `n - 1` entries. -/
theorem deltas_length : ∀ l : List ℚ, (deltas l).length = l.length - 1 := by
  intro l
  induction l with
  | nil => simp [deltas]
  | cons a t ih =>
    cases t with
    | nil => simp [deltas]
    | cons b t2 =>
      simp only [deltas, List.length_cons]
      rw [ih]
      simp

/-- The clipped gains column has one entry per bar. -/
theorem gains_length (l : List ℚ) : (gains l).length = l.length := by
  cases l with
  | nil => rfl
  | cons c cs =>
    simp [gains, deltas_length]

/-- The clipped losses column has one entry per bar. -/
theorem losses_length (l : List ℚ) : (losses l).length = l.length := by
  cases l with
  | nil => rfl
  | cons c cs =>
    simp [losses, deltas_length]

/-- On a strictly rising series every consecutive difference is
positive. -/
theorem deltas_pos : ∀ l : List ℚ, List.Chain' (· < ·) l → ∀ d ∈ deltas l, 0 < d := by
  intro l
  induction l with
  | nil => intro _ d hd; simp [deltas] at hd
  | cons a t ih =>
    cases t with
    | nil => intro _ d hd; simp [deltas] at hd
    | cons b t2 =>
      intro hch d hd
      rw [List.chain'_cons] at hch
      rcases List.mem_cons.mp hd with rfl | hd2
      · linarith [hch.1]
      · exact ih hch.2 d hd2

/-- On a strictly rising series every clipped loss is zero. -/
theorem losses_zero (l : List ℚ) (h : List.Chain' (· < ·) l) :
    ∀ x ∈ losses l, x = 0 := by
  cases l with
  | nil => intro x hx; simp [losses] at hx
  | cons c cs =>
    intro x hx
    rcases List.mem_cons.mp hx with rfl | hx2
    · rfl
    · obtain ⟨d, hd, rfl⟩ := List.mem_map.mp hx2
      have hdp : 0 < d := deltas_pos _ h d hd
      exact max_eq_right (by linarith)

/-- Every clipped gain is nonnegative. -/
theorem gains_nonneg (l : List ℚ) : ∀ x ∈ gains l, 0 ≤ x := by
  cases l with
  | nil => intro x hx; simp [gains] at hx
  | cons c cs =>
    intro x hx
    rcases List.mem_cons.mp hx with rfl | hx2
    · exact le_refl 0
    · obtain ⟨d, _, rfl⟩ := List.mem_map.mp hx2
      exact le_max_right d 0

/-- A rolling window is a sub-collection of its column. -/
theorem window14_subset (l : List ℚ) (t : ℕ) : ∀ x ∈ window14 l t, x ∈ l := by
  intro x hx
  exact List.drop_subset _ _ (List.take_subset _ _ hx)

/-- On a strictly rising series the rolling average loss is 0 at every
position. -/
theorem avgLoss_rising_zero (closes : List ℚ) (h : List.Chain' (· < ·) closes)
    (t : ℕ) : avgLoss closes t = 0 := by
  unfold avgLoss
  have hz : (window14 (losses closes) t).sum = 0 :=
    List.sum_eq_zero (fun x hx => losses_zero closes h x (window14_subset _ t x hx))
  rw [hz, zero_div]

/-- A nonnegative list with a positive member has positive sum. -/
theorem sum_pos_of_mem (l : List ℚ) (hnn : ∀ y ∈ l, 0 ≤ y) (x : ℚ)
    (hx : x ∈ l) (hpos : 0 < x) : 0 < l.sum := by
  induction l with
  | nil => simp at hx
  | cons a t ih =>
    rcases List.mem_cons.mp hx with rfl | hxt
    · have : 0 ≤ t.sum := List.sum_nonneg (fun y hy => hnn y (List.mem_cons_of_mem _ hy))
      simp only [List.sum_cons]
      linarith
    · have ha : 0 ≤ a := hnn a (List.mem_cons_self _ _)
      have : 0 < t.sum := ih (fun y hy => hnn y (List.mem_cons_of_mem _ hy)) hxt
      simp only [List.sum_cons]
      linarith

/-- Lookup after a drop shifts the index. -/
theorem drop_getD (d : ℚ) : ∀ (k : ℕ) (l : List ℚ) (i : ℕ),
    (l.drop k).getD i d = l.getD (k + i) d := by
  intro k
  induction k with
  | zero => intro l i; simp
  | succ k ih =>
    intro l i
    cases l with
    | nil => simp
    | cons a t =>
      rw [List.drop_succ_cons, ih t i]
      simp [Nat.succ_add]

/-- Lookup inside the taken prefix is lookup in the list. -/
theorem take_getD (d : ℚ) : ∀ (k : ℕ) (l : List ℚ) (i : ℕ), i < k →
    (l.take k).getD i d = l.getD i d := by
  intro k
  induction k with
  | zero => intro l i hi; omega
  | succ k ih =>
    intro l i hi
    cases l with
    | nil => simp
    | cons a t =>
      cases i with
      | zero => simp
      | succ i => simpa using ih t i (by omega)

/-- An in-range default lookup is a member. -/
theorem getD_mem (d : ℚ) : ∀ (l : List ℚ) (i : ℕ), i < l.length → l.getD i d ∈ l := by
  intro l
  induction l with
  | nil => intro i hi; simp at hi
  | cons a t ih =>
    intro i hi
    cases i with
    | zero => simp
    | succ i =>
      simp only [List.getD_cons_succ]
      exact List.mem_cons_of_mem _ (ih i (by simpa using hi))

/-- Lookup through a map applies the function. -/
theorem map_getD (f : ℚ → ℚ) : ∀ (l : List ℚ) (i : ℕ), i < l.length →
    (l.map f).getD i 0 = f (l.getD i 0) := by
  intro l
  induction l with
  | nil => intro i hi; simp at hi
  | cons a t ih =>
    intro i hi
    cases i with
    | zero => simp
    | succ i => simpa using ih i (by simpa using hi)

/-- On a strictly rising series the clipped gain at every position past
the first is positive. -/
theorem gains_getD_pos (l : List ℚ) (t : ℕ) (h : List.Chain' (· < ·) l)
    (ht : 1 ≤ t) (htl : t < l.length) : 0 < (gains l).getD t 0 := by
  cases l with
  | nil => simp at htl
  | cons c cs =>
    obtain ⟨j, rfl⟩ : ∃ j, t = j + 1 := ⟨t - 1, by omega⟩
    have hjlen : j < (deltas (c :: cs)).length := by
      rw [deltas_length]
      simp only [List.length_cons] at htl ⊢
      omega
    show (0 :: (deltas (c :: cs)).map (fun d => max d 0)).getD (j + 1) 0 > 0
    rw [List.getD_cons_succ, map_getD _ _ _ hjlen]
    have hd : 0 < (deltas (c :: cs)).getD j 0 :=
      deltas_pos _ h _ (getD_mem 0 _ j hjlen)
    exact lt_max_of_lt_left hd

/-- On a strictly rising series of at least 15 bars the rolling average
gain at the last position is positive (the full window contains at least
one genuine, positive delta). -/
theorem avgGain_last_pos (closes : List ℚ) (h : List.Chain' (· < ·) closes)
    (hlen : 15 ≤ closes.length) : 0 < avgGain closes (closes.length - 1) := by
  unfold avgGain
  have hglen : (gains closes).length = closes.length := gains_length closes
  have hidx : closes.length - 1 + 1 - 14 = closes.length - 14 := by omega
  have hdroplen : ((gains closes).drop (closes.length - 14)).length = 14 := by
    rw [List.length_drop, hglen]; omega
  have hval : (window14 (gains closes) (closes.length - 1)).getD 13 0 =
      (gains closes).getD (closes.length - 1) 0 := by
    unfold window14
    rw [hidx, take_getD 0 14 _ 13 (by norm_num), drop_getD 0 _ _ 13]
    congr 1
    omega
  have hg : 0 < (gains closes).getD (closes.length - 1) 0 :=
    gains_getD_pos closes _ h (by omega) (by omega)
  have hwlen : (window14 (gains closes) (closes.length - 1)).length = 14 := by
    unfold window14
    rw [hidx, List.length_take, hdroplen]
    exact min_self 14
  have hmem : (window14 (gains closes) (closes.length - 1)).getD 13 0 ∈
      window14 (gains closes) (closes.length - 1) :=
    getD_mem 0 _ 13 (by rw [hwlen]; norm_num)
  have hsum : 0 < (window14 (gains closes) (closes.length - 1)).sum := by
    refine sum_pos_of_mem _ ?_ _ hmem (by rw [hval]; exact hg)
    intro y hy
    exact gains_nonneg closes y (window14_subset _ _ y hy)
  exact div_pos hsum (by norm_num)

/-- Claim C8 as amended: where the 14-bar rolling average loss is 0 and
the average gain is positive the RSI is 100 (via the float division
producing infinity, not an explicit fallback branch); where both rolling
averages are 0 the RSI is NaN, not 50; and an all-rising series of at
least 15 bars yields RSI = 100 at its last position. -/
theorem rsi_zero_denominator (closes : List ℚ) (t : ℕ)
    (h14 : 14 ≤ closes.length) (ht13 : 13 ≤ t) (htn : t < closes.length) :
    (avgLoss closes t = 0 → 0 < avgGain closes t → rsiAt closes t = FQ.fin 100) ∧
    (avgLoss closes t = 0 → avgGain closes t = 0 → rsiAt closes t = FQ.nan) ∧
    (15 ≤ closes.length → List.Chain' (· < ·) closes →
      rsiAt closes (closes.length - 1) = FQ.fin 100) := by
  refine ⟨?_, ?_, ?_⟩
  · intro hl hg
    simp [rsiAt, rsDiv, rsiOfRS, hl, hg.ne']
  · intro hl hg
    simp [rsiAt, rsDiv, rsiOfRS, hl, hg]
  · intro h15 hchain
    have hl := avgLoss_rising_zero closes hchain (closes.length - 1)
    have hg := avgGain_last_pos closes hchain h15
    simp [rsiAt, rsDiv, rsiOfRS, hl, hg.ne']

/-- Witness for the amended C8: the strictly rising 15-bar series
1, 2, ..., 15 has RSI exactly 100 at its last position. -/
theorem rsi_zero_denominator_witness :
    rsiAt [1, 2, 3, 4, 5, 6, 7, 8, 9, 10, 11, 12, 13, 14, 15] 14 = FQ.fin 100 :=
  (rsi_zero_denominator [1, 2, 3, 4, 5, 6, 7, 8, 9, 10, 11, 12, 13, 14, 15] 14
      (by norm_num) (by norm_num) (by norm_num)).2.2 (by norm_num)
    (by norm_num [List.chain'_cons])

/-- Counterexample to C8: on a flat 15-bar series both rolling averages
are 0 at the last position, and the RSI there is NaN (0/0 propagated),
not the claimed neutral 50. -/
theorem rsi_flat_not_50 :
    avgGain [1, 1, 1, 1, 1, 1, 1, 1, 1, 1, 1, 1, 1, 1, 1] 14 = 0 ∧
    avgLoss [1, 1, 1, 1, 1, 1, 1, 1, 1, 1, 1, 1, 1, 1, 1] 14 = 0 ∧
    rsiAt [1, 1, 1, 1, 1, 1, 1, 1, 1, 1, 1, 1, 1, 1, 1] 14 = FQ.nan ∧
    rsiAt [1, 1, 1, 1, 1, 1, 1, 1, 1, 1, 1, 1, 1, 1, 1] 14 ≠ FQ.fin 50 := by
  have hg : avgGain [1, 1, 1, 1, 1, 1, 1, 1, 1, 1, 1, 1, 1, 1, 1] 14 = 0 := by
    norm_num [avgGain, window14, gains, deltas]
  have hl : avgLoss [1, 1, 1, 1, 1, 1, 1, 1, 1, 1, 1, 1, 1, 1, 1] 14 = 0 := by
    norm_num [avgLoss, window14, losses, deltas]
  have hn : rsiAt [1, 1, 1, 1, 1, 1, 1, 1, 1, 1, 1, 1, 1, 1, 1] 14 = FQ.nan := by
    simp [rsiAt, rsDiv, rsiOfRS, hg, hl]
  exact ⟨hg, hl, hn, by rw [hn]; simp⟩

/-- The pct-change series of an `n`-bar series has `n - 1` entries. -/
theorem pctChanges_length : ∀ l : List ℚ, (pctChanges l).length = l.length - 1 := by
  intro l
  induction l with
  | nil => simp [pctChanges]
  | cons a t ih =>
    cases t with
    | nil => simp [pctChanges]
    | cons b t2 =>
      simp only [pctChanges, List.length_cons]
      rw [ih]
      simp

/-- The cumulative product curve has one point per factor. -/
theorem cumsIn_length : ∀ (fs : List ℚ) (acc : ℚ), (cumsIn acc fs).length = fs.length := by
  intro fs
  induction fs with
  | nil => intro acc; rfl
  | cons f fs ih => intro acc; simp [cumsIn, ih]

/-- With positive closes every growth factor `1 + r` is positive
(`1 + (c - p)/p = c/p`). -/
theorem growthFactors_pos : ∀ l : List ℚ, (∀ c ∈ l, 0 < c) →
    ∀ f ∈ growthFactors l, 0 < f := by
  intro l
  induction l with
  | nil => intro _ f hf; simp [growthFactors, pctChanges] at hf
  | cons p t ih =>
    cases t with
    | nil => intro _ f hf; simp [growthFactors, pctChanges] at hf
    | cons c t2 =>
      intro hpos f hf
      simp only [growthFactors, pctChanges, List.map_cons, List.mem_cons] at hf
      rcases hf with rfl | hf2
      · have hp : 0 < p := hpos p (List.mem_cons_self _ _)
        have hc : 0 < c := hpos c (List.mem_cons_of_mem _ (List.mem_cons_self _ _))
        have : 1 + (c - p) / p = c / p := by field_simp
        rw [this]
        exact div_pos hc hp
      · exact ih (fun x hx => hpos x (List.mem_cons_of_mem _ hx)) f hf2

/-- With positive, non-decreasing closes every growth factor is at
least 1. -/
theorem growthFactors_ge_one : ∀ l : List ℚ, (∀ c ∈ l, 0 < c) →
    List.Chain' (· ≤ ·) l → ∀ f ∈ growthFactors l, 1 ≤ f := by
  intro l
  induction l with
  | nil => intro _ _ f hf; simp [growthFactors, pctChanges] at hf
  | cons p t ih =>
    cases t with
    | nil => intro _ _ f hf; simp [growthFactors, pctChanges] at hf
    | cons c t2 =>
      intro hpos hch f hf
      rw [List.chain'_cons] at hch
      simp only [growthFactors, pctChanges, List.map_cons, List.mem_cons] at hf
      rcases hf with rfl | hf2
      · have hp : 0 < p := hpos p (List.mem_cons_self _ _)
        have hr : 0 ≤ (c - p) / p := div_nonneg (by linarith [hch.1]) hp.le
        linarith
      · exact ih (fun x hx => hpos x (List.mem_cons_of_mem _ hx)) hch.2 f hf2

/-- A cumulative product of positive factors from a positive seed stays
positive. -/
theorem cumsIn_pos : ∀ (fs : List ℚ) (acc : ℚ), 0 < acc → (∀ f ∈ fs, 0 < f) →
    ∀ x ∈ cumsIn acc fs, 0 < x := by
  intro fs
  induction fs with
  | nil => intro acc _ _ x hx; simp [cumsIn] at hx
  | cons f fs ih =>
    intro acc hacc hpos x hx
    have hf : 0 < f := hpos f (List.mem_cons_self _ _)
    rcases List.mem_cons.mp hx with rfl | hx2
    · exact mul_pos hacc hf
    · exact ih (acc * f) (mul_pos hacc hf)
        (fun g hg => hpos g (List.mem_cons_of_mem _ hg)) x hx2

/-- A cumulative product of factors at least 1 from a positive seed is
non-decreasing. -/
theorem cumsIn_chain : ∀ (fs : List ℚ) (acc : ℚ), 0 < acc → (∀ f ∈ fs, 0 < f) →
    (∀ f ∈ fs, 1 ≤ f) → List.Chain' (· ≤ ·) (cumsIn acc fs) := by
  intro fs
  induction fs with
  | nil => intro acc _ _ _; simp [cumsIn]
  | cons f fs ih =>
    intro acc hacc hpos hge
    have hf : 0 < f := hpos f (List.mem_cons_self _ _)
    rw [show cumsIn acc (f :: fs) = (acc * f) :: cumsIn (acc * f) fs from rfl,
        List.chain'_cons']
    constructor
    · intro y hy
      cases fs with
      | nil => simp [cumsIn] at hy
      | cons f2 fs2 =>
        simp only [cumsIn, List.head?_cons, Option.mem_def, Option.some_inj] at hy
        subst hy
        have hf2 : 1 ≤ f2 := hge f2 (List.mem_cons_of_mem _ (List.mem_cons_self _ _))
        exact le_mul_of_one_le_right (mul_pos hacc hf).le hf2
    · exact ih (acc * f) (mul_pos hacc hf)
        (fun g hg => hpos g (List.mem_cons_of_mem _ hg))
        (fun g hg => hge g (List.mem_cons_of_mem _ hg))

/-- Every drawdown against a positive running maximum is nonpositive. -/
theorem dd_aux_nonpos : ∀ (cs : List ℚ) (m : ℚ), 0 < m → (∀ z ∈ cs, 0 < z) →
    ∀ x ∈ List.zipWith (fun c mx => (c - mx) / mx) cs (expandingMaxFrom m cs), x ≤ 0 := by
  intro cs
  induction cs with
  | nil => intro m _ _ x hx; simp at hx
  | cons c cs ih =>
    intro m hm hpos x hx
    simp only [expandingMaxFrom, List.zipWith_cons_cons, List.mem_cons] at hx
    have hmc : 0 < max m c := lt_of_lt_of_le hm (le_max_left m c)
    rcases hx with rfl | hx2
    · have h1 : c - max m c ≤ 0 := sub_nonpos.mpr (le_max_right m c)
      exact div_nonpos_iff.mpr (Or.inr ⟨h1, hmc.le⟩)
    · exact ih (max m c) hmc (fun z hz => hpos z (List.mem_cons_of_mem _ hz)) x hx2

/-- If the curve never falls below the running maximum seed, every
drawdown is exactly 0. -/
theorem dd_aux_zero : ∀ (cs : List ℚ) (m : ℚ), List.Chain' (· ≤ ·) (m :: cs) →
    ∀ x ∈ List.zipWith (fun c mx => (c - mx) / mx) cs (expandingMaxFrom m cs), x = 0 := by
  intro cs
  induction cs with
  | nil => intro m _ x hx; simp at hx
  | cons c cs ih =>
    intro m hch x hx
    rw [List.chain'_cons] at hch
    have hmax : max m c = c := max_eq_right hch.1
    simp only [expandingMaxFrom, List.zipWith_cons_cons, List.mem_cons, hmax] at hx
    rcases hx with rfl | hx2
    · rw [sub_self, zero_div]
    · exact ih c hch.2 x hx2

/-- A left fold of `min` never exceeds its seed. -/
theorem foldl_min_le (l : List ℚ) : ∀ a : ℚ, l.foldl min a ≤ a := by
  induction l with
  | nil => intro a; exact le_refl a
  | cons x t ih =>
    intro a
    calc (x :: t).foldl min a = t.foldl min (min a x) := rfl
    _ ≤ min a x := ih (min a x)
    _ ≤ a := min_le_left a x

/-- A left fold of `min` over an all-zero list from seed 0 is 0. -/
theorem foldl_min_zero : ∀ l : List ℚ, (∀ x ∈ l, x = 0) → l.foldl min 0 = 0 := by
  intro l
  induction l with
  | nil => intro _; rfl
  | cons x t ih =>
    intro h
    have hx : x = 0 := h x (List.mem_cons_self _ _)
    subst hx
    rw [show (((0:ℚ)) :: t).foldl min 0 = t.foldl min (min 0 0) from rfl, min_self]
    exact ih (fun y hy => h y (List.mem_cons_of_mem _ hy))

/-- Claim C9: for at least 252 bars of positive closes, the reported max
drawdown is present and nonpositive, and for non-decreasing closes it is
exactly 0. -/
theorem maxDrawdown_nonpos (hist : List Bar) (h252 : 252 ≤ hist.length)
    (hpos : ∀ b ∈ hist, 0 < b.close) :
    (∃ d, maxDrawdown hist = some d ∧ d ≤ 0) ∧
    (List.Chain' (· ≤ ·) (closesOf hist) → maxDrawdown hist = some 0) := by
  have hclen : (closesOf hist).length = hist.length := List.length_map _ _
  have hcpos : ∀ c ∈ closesOf hist, 0 < c := by
    intro c hc
    obtain ⟨b, hb, rfl⟩ := List.mem_map.mp hc
    exact hpos b hb
  have hfpos : ∀ f ∈ growthFactors (closesOf hist), 0 < f :=
    growthFactors_pos _ hcpos
  have hcumlen : (cumulativeReturns (closesOf hist)).length = hist.length - 1 := by
    rw [cumulativeReturns, cumsIn_length, growthFactors, List.length_map,
        pctChanges_length, hclen]
  obtain ⟨c0, cs, hcum⟩ : ∃ c0 cs, cumulativeReturns (closesOf hist) = c0 :: cs := by
    cases hc : cumulativeReturns (closesOf hist) with
    | nil => rw [hc] at hcumlen; simp at hcumlen; omega
    | cons a t => exact ⟨a, t, rfl⟩
  have hcumpos : ∀ x ∈ cumulativeReturns (closesOf hist), 0 < x :=
    cumsIn_pos _ _ one_pos hfpos
  have hc0 : 0 < c0 := hcumpos c0 (hcum ▸ List.mem_cons_self _ _)
  have hdd : drawdownsOf (closesOf hist) =
      ((c0 - c0) / c0) :: List.zipWith (fun c mx => (c - mx) / mx) cs
        (expandingMaxFrom c0 cs) := by
    rw [drawdownsOf, hcum]
    rfl
  have hhead : (c0 - c0) / c0 = 0 := by rw [sub_self, zero_div]
  have hmd : maxDrawdown hist =
      some ((List.zipWith (fun c mx => (c - mx) / mx) cs
        (expandingMaxFrom c0 cs)).foldl min 0) := by
    rw [maxDrawdown, if_neg (by omega), hdd, hhead]
    rfl
  constructor
  · have htail : ∀ x ∈ List.zipWith (fun c mx => (c - mx) / mx) cs
        (expandingMaxFrom c0 cs), x ≤ 0 :=
      dd_aux_nonpos cs c0 hc0
        (fun z hz => hcumpos z (hcum ▸ List.mem_cons_of_mem _ hz))
    exact ⟨_, hmd, foldl_min_le _ 0⟩
  · intro hchain
    have hge1 : ∀ f ∈ growthFactors (closesOf hist), 1 ≤ f :=
      growthFactors_ge_one _ hcpos hchain
    have hcumchain : List.Chain' (· ≤ ·) (c0 :: cs) := by
      rw [← hcum]
      exact cumsIn_chain _ _ one_pos hfpos hge1
    have htail0 : ∀ x ∈ List.zipWith (fun c mx => (c - mx) / mx) cs
        (expandingMaxFrom c0 cs), x = 0 :=
      dd_aux_zero cs c0 hcumchain
    rw [hmd, foldl_min_zero _ htail0]

/-- A constant rational list is non-decreasing. -/
theorem chain_le_replicate : ∀ (n : ℕ) (a : ℚ),
    List.Chain' (· ≤ ·) (List.replicate n a) := by
  intro n a
  induction n with
  | zero => simp
  | succ n ih =>
    rw [List.replicate_succ, List.chain'_cons']
    refine ⟨?_, ih⟩
    intro h hh
    cases n with
    | zero => simp at hh
    | succ m =>
      rw [List.replicate_succ, List.head?_cons, Option.mem_def, Option.some_inj] at hh
      subst hh
      exact le_refl a

/-- Witness for C9: 252 constant bars have max drawdown exactly 0
(hence also nonpositive). -/
theorem maxDrawdown_nonpos_witness :
    (∃ d, maxDrawdown (List.replicate 252 (Bar.mk 1 1)) = some d ∧ d ≤ 0) ∧
    maxDrawdown (List.replicate 252 (Bar.mk 1 1)) = some 0 := by
  have hpos : ∀ b ∈ List.replicate 252 (Bar.mk 1 1), 0 < b.close := by
    intro b hb
    rw [List.eq_of_mem_replicate hb]
    norm_num
  have h := maxDrawdown_nonpos (List.replicate 252 (Bar.mk 1 1))
    (by rw [List.length_replicate]) hpos
  refine ⟨h.1, h.2 ?_⟩
  rw [closesOf_replicate]
  exact chain_le_replicate 252 _
